import Mathlib

/-!
Verification development for the `ts_analyzer` library
(`src/ts_analyzer/__init__.py`).

The library parses TypeScript source files into concrete syntax trees
(CSTs) supplied by an external parsing engine and runs structural
queries over them.  We shallowly embed the library's data model and
operations:

* a CST node is a type tag, a byte range, a start point and a list of
  children (`TSA.Node`);
* the external file system, parser and query compiler are parameters
  (`fs : String → Option String`, `parse : String → Option Node`, ...);
  a `none` result models the exception the Python code catches;
* the parse cache is an association list threaded through every
  operation, mirroring `self._parsed_files_cache`;
* the Python callbacks that append to a per-file list are embedded as
  state-passing callbacks for the recursive walker `_traverse_tree`;
  the file reads the callbacks perform (which can raise if the read
  fails) are modelled with `Except Unit`, an `.error` being the
  uncaught exception.

Definitions are translated from the source; the two definitions that
follow the specification's words instead (for refinement-style claims)
are `prunedPreorder` (the claimed pre-order pruned visit sequence) and
`recognizedShape` (the capture shapes the specification calls
"recognized").
-/

namespace TSA

/-- A (row, column) position, as in TreeSitter's `start_point`. -/
structure Point where
  row : Nat
  col : Nat
deriving Repr, DecidableEq

/-- A CST node as exposed by the external parsing engine: type tag,
byte range `[startByte, endByte)`, start point, ordered children. -/
inductive Node : Type where
  | mk : String → Nat → Nat → Point → List Node → Node
deriving Repr

def Node.type : Node → String
  | .mk t _ _ _ _ => t

def Node.startByte : Node → Nat
  | .mk _ s _ _ _ => s

def Node.endByte : Node → Nat
  | .mk _ _ e _ _ => e

def Node.startPoint : Node → Point
  | .mk _ _ _ p _ => p

def Node.children : Node → List Node
  | .mk _ _ _ _ cs => cs

/-- Python's slice `content[s:e]` (over the code points of `content`). -/
def strSlice (content : String) (s e : Nat) : String :=
  (((content.toList).drop s).take (e - s)).asString

/-- Python's substring test `needle in haystack`. -/
def strContainsB (haystack needle : String) : Bool :=
  (List.range (haystack.toList.length + 1)).any fun i =>
    decide (needle.toList = (haystack.toList.drop i).take needle.toList.length)

/-- Python's suffix test `s.endswith(post)`. -/
def strEndsWith (s post : String) : Bool :=
  decide (post.toList = s.toList.drop (s.toList.length - post.toList.length))

/-- Python's `s.strip()`: drop leading and trailing whitespace. -/
def strTrim (s : String) : String :=
  ((((s.toList.dropWhile Char.isWhitespace).reverse).dropWhile Char.isWhitespace).reverse).asString

/-- The number of lines `f.readlines()` yields for `content`. -/
def lineCount (content : String) : Nat :=
  if content.toList.isEmpty then 0
  else (content.toList.count '\n') + (if content.toList.getLast? = some '\n' then 0 else 1)

mutual
/-- `TypeScriptAnalyzer._traverse_tree`: call the callback on the node;
descend into the children unless the callback returned exactly `False`
(`some false`; `none` is a Python callback that returns `None`). -/
def traverseTree {σ : Type} (cb : Node → σ → σ × Option Bool) : Node → σ → σ
  | .mk ty sb eb sp cs, s =>
    let r := cb (.mk ty sb eb sp cs) s
    if r.2 = some false then r.1 else traverseList cb cs r.1
def traverseList {σ : Type} (cb : Node → σ → σ × Option Bool) : List Node → σ → σ
  | [], s => s
  | n :: rest, s => traverseList cb rest (traverseTree cb n s)
end

mutual
/-- Modelled from the spec (§4.2): the claimed visit sequence of the
walker — pre-order depth-first, with the children of a node pruned
exactly when the visitor answers the explicit skip signal (`False`). -/
def prunedPreorder (d : Node → Option Bool) : Node → List Node
  | .mk ty sb eb sp cs =>
    .mk ty sb eb sp cs :: (if d (.mk ty sb eb sp cs) = some false then [] else prunedPreorderList d cs)
def prunedPreorderList (d : Node → Option Bool) : List Node → List Node
  | [] => []
  | n :: rest => prunedPreorder d n ++ prunedPreorderList d rest
end

/-- `self._parsed_files_cache`, keyed by the file path. -/
abbrev Cache : Type := List (String × Node)

def lookupCache (st : Cache) (p : String) : Option Node :=
  match st with
  | [] => none
  | (q, t) :: rest => if q = p then some t else lookupCache rest p

/-- `TypeScriptAnalyzer.parse_file`.  `fs` is the file system (`none`
models a read that raises), `parse` the external parser (`none` models
a parse that raises; the exception is caught and `None` returned, and
nothing is stored in the cache). -/
def parseFile (fs : String → Option String) (parse : String → Option Node)
    (st : Cache) (path : String) : Cache × Option Node :=
  match lookupCache st path with
  | some t => (st, some t)
  | none =>
    match fs path with
    | none => (st, none)
    | some content =>
      match parse content with
      | none => (st, none)
      | some tree => ((path, tree) :: st, some tree)

/-- `TypeScriptAnalyzer.clear_cache`. -/
def clearCache (_st : Cache) : Cache := []

/-- What parsing `path` from the current file system yields, cache aside. -/
def pureParse (fs : String → Option String) (parse : String → Option Node)
    (p : String) : Option Node :=
  (fs p).bind parse

/-- Every cached tree is the tree the current file system would give:
the state of the cache after any number of operations against an
unmodified file system. -/
def CacheConsistent (fs : String → Option String) (parse : String → Option Node)
    (st : Cache) : Prop :=
  ∀ p t, lookupCache st p = some t → pureParse fs parse p = some t

/-- A `find_imports` match record. -/
structure ImportRec where
  line : Nat
  text : String
  import_type : String
deriving Repr, DecidableEq

/-- A `find_function_calls` match record; `first_arg = none` models the
dictionary without the optional `first_arg` key. -/
structure CallRec where
  line : Nat
  column : Nat
  text : String
  first_arg : Option String
deriving Repr, DecidableEq

/-- A `find_class_definitions` match record. -/
structure ClassRec where
  name : String
  line : Nat
  column : Nat
  text : String
deriving Repr, DecidableEq

/-- A `custom_query` match record. -/
structure QueryRec where
  capture : String
  line : Nat
  column : Nat
  text : String
deriving Repr, DecidableEq

/-- The per-node test of `find_imports.process_node` once the file
content has been read. -/
def processImportNode (content name : String) (node : Node) : Option ImportRec :=
  let importText := strSlice content node.startByte node.endByte
  if strContainsB importText name then
    some { line := node.startPoint.row + 1, text := strTrim importText, import_type := node.type }
  else none

/-- `find_imports.process_node`: on an import node the callback re-opens
the file (raising — `.error` — if the read fails) and appends the
record if the name occurs in the import text.  Returns `none` (Python
`None`), so traversal always descends. -/
def importCb (contentOpt : Option String) (name : String) (node : Node)
    (s : Except Unit (List ImportRec)) : Except Unit (List ImportRec) × Option Bool :=
  match s with
  | .error e => (.error e, none)
  | .ok recs =>
    if node.type = "import_statement" ∨ node.type = "import_declaration" then
      match contentOpt with
      | none => (.error (), none)
      | some content => (.ok (recs ++ (processImportNode content name node).toList), none)
    else (.ok recs, none)

/-- One file's worth of `find_imports`. -/
def findImportsFile (contentOpt : Option String) (name : String) (root : Node) :
    Except Unit (List ImportRec) :=
  traverseTree (importCb contentOpt name) root (.ok [])

/-- The per-node match of `find_function_calls.process_node` once the
file content has been read: the callee is the node's first child; its
text must equal the name or end with `"." ++ name`; with
`extract_first_arg`, the first element of an `arguments` second child
is attached. -/
def processCallNode (content name : String) (efa : Bool) (node : Node) : Option CallRec :=
  match node.children with
  | [] => none
  | fn :: _ =>
    let foundName := strSlice content fn.startByte fn.endByte
    if foundName = name ∨ strEndsWith foundName ("." ++ name) = true then
      some { line := node.startPoint.row + 1
             column := node.startPoint.col
             text := strTrim (strSlice content node.startByte node.endByte)
             first_arg :=
               if efa then
                 match node.children with
                 | _ :: args :: _ =>
                   if args.type = "arguments" then
                     match args.children with
                     | a1 :: _ => some (strTrim (strSlice content a1.startByte a1.endByte))
                     | [] => none
                   else none
                 | _ => none
               else none }
    else none

/-- `find_function_calls.process_node`: on a call-expression node with
children the callback re-opens the file (raising if the read fails)
and appends the record when the callee matches. -/
def callCb (contentOpt : Option String) (name : String) (efa : Bool) (node : Node)
    (s : Except Unit (List CallRec)) : Except Unit (List CallRec) × Option Bool :=
  match s with
  | .error e => (.error e, none)
  | .ok recs =>
    if node.type = "call_expression" then
      match node.children with
      | [] => (.ok recs, none)
      | _ :: _ =>
        match contentOpt with
        | none => (.error (), none)
        | some content => (.ok (recs ++ (processCallNode content name efa node).toList), none)
    else (.ok recs, none)

/-- One file's worth of `find_function_calls`. -/
def findFunctionCallsFile (contentOpt : Option String) (name : String) (efa : Bool)
    (root : Node) : Except Unit (List CallRec) :=
  traverseTree (callCb contentOpt name efa) root (.ok [])

/-- The loop locating the first `type_identifier` child. -/
def findTypeIdentChild : List Node → Option Node
  | [] => none
  | c :: rest => if c.type = "type_identifier" then some c else findTypeIdentChild rest

/-- The per-node match of `find_class_definitions.process_node` once the
file content has been read.  `classFilter` is the optional name filter. -/
def processClassNode (content : String) (classFilter : Option String) (node : Node) :
    Option ClassRec :=
  match findTypeIdentChild node.children with
  | none => none
  | some cn =>
    let foundName := strSlice content cn.startByte cn.endByte
    if classFilter = none ∨ classFilter = some foundName then
      some { name := foundName
             line := node.startPoint.row + 1
             column := node.startPoint.col
             text := strSlice content node.startByte node.endByte }
    else none

/-- `find_class_definitions.process_node`: on a class-declaration node
the callback re-opens the file (raising if the read fails), finds the
name child and appends the record when the filter allows it. -/
def classCb (contentOpt : Option String) (classFilter : Option String) (node : Node)
    (s : Except Unit (List ClassRec)) : Except Unit (List ClassRec) × Option Bool :=
  match s with
  | .error e => (.error e, none)
  | .ok recs =>
    if node.type = "class_declaration" then
      match contentOpt with
      | none => (.error (), none)
      | some content => (.ok (recs ++ (processClassNode content classFilter node).toList), none)
    else (.ok recs, none)

/-- One file's worth of `find_class_definitions`. -/
def findClassDefinitionsFile (contentOpt : Option String) (classFilter : Option String)
    (root : Node) : Except Unit (List ClassRec) :=
  traverseTree (classCb contentOpt classFilter) root (.ok [])

/-- The shared per-file loop of the three `find_*` operations: parse
each file through the cache (a failed parse skips the file), run the
per-file collector (whose `.error` — an uncaught read exception inside
the callback — aborts the whole operation), and record the file only
when it produced at least one match (`if file_matches:`). -/
def runOpAux {ρ : Type} (perFile : String → Node → Except Unit (List ρ))
    (fs : String → Option String) (parse : String → Option Node) :
    List String → Cache → List (String × List ρ) →
      Except Unit (Cache × List (String × List ρ))
  | [], st, acc => .ok (st, acc)
  | p :: rest, st, acc =>
    match parseFile fs parse st p with
    | (st', none) => runOpAux perFile fs parse rest st' acc
    | (st', some tree) =>
      match perFile p tree with
      | .error e => .error e
      | .ok recs =>
        runOpAux perFile fs parse rest st'
          (if recs.isEmpty then acc else acc ++ [(p, recs)])

/-- `TypeScriptAnalyzer.find_imports` over the discovered file list. -/
def findImports (files : List String) (fs : String → Option String)
    (parse : String → Option Node) (st : Cache) (name : String) :
    Except Unit (Cache × List (String × List ImportRec)) :=
  runOpAux (fun p tree => findImportsFile (fs p) name tree) fs parse files st []

/-- `TypeScriptAnalyzer.find_function_calls` over the discovered file list. -/
def findFunctionCalls (files : List String) (fs : String → Option String)
    (parse : String → Option Node) (st : Cache) (name : String) (efa : Bool) :
    Except Unit (Cache × List (String × List CallRec)) :=
  runOpAux (fun p tree => findFunctionCallsFile (fs p) name efa tree) fs parse files st []

/-- `TypeScriptAnalyzer.find_class_definitions` over the discovered file list. -/
def findClassDefinitions (files : List String) (fs : String → Option String)
    (parse : String → Option Node) (st : Cache) (classFilter : Option String) :
    Except Unit (Cache × List (String × List ClassRec)) :=
  runOpAux (fun p tree => findClassDefinitionsFile (fs p) classFilter tree) fs parse files st []

/-- A non-node element of a raw capture tuple. -/
inductive PyVal : Type where
  | vstr : String → PyVal
  | vint : Int → PyVal
deriving Repr, DecidableEq

/-- One item of the raw output of `query.captures(...)`: a tuple whose
first element is a node followed by arbitrary further elements
(`tup n rest` has Python length `1 + rest.length`), or a non-tuple
item. -/
inductive RawItem : Type where
  | tup : Node → List PyVal → RawItem
  | nonTuple : RawItem
deriving Repr

/-- `item[1]` if it is a string, else `item[2]` if present and a
string, else `"unknown"`. -/
def captureNameOf (rest : List PyVal) : String :=
  match rest with
  | .vstr s :: _ => s
  | _ :: .vstr s :: _ => s
  | _ => "unknown"

/-- The per-item decoding step of `custom_query`: non-tuples are
skipped (`continue`), tuples need `len(item) >= 2` to produce a
record, and the capture name is decoded by `captureNameOf`. -/
def processCapture (content : String) : RawItem → Option QueryRec
  | .nonTuple => none
  | .tup n rest =>
    if rest.length + 1 ≥ 2 then
      some { capture := captureNameOf rest
             line := n.startPoint.row + 1
             column := n.startPoint.col
             text := strSlice content n.startByte n.endByte }
    else none

/-- Modelled from the spec (§4.4, claim C3): the two capture shapes the
specification calls "recognized" — a node-plus-capture-name pair and a
node-plus-index-plus-name triple. -/
def recognizedShape : RawItem → Bool
  | .tup _ [.vstr _] => true
  | .tup _ [.vint _, .vstr _] => true
  | _ => false

/-- The per-file loop of `custom_query`: a failed parse skips the file;
a failed content read is caught per file (`except: continue`); the
captures are decoded one by one and the file recorded only when it
produced at least one record. -/
def customQueryAux (q : Node → List RawItem) (fs : String → Option String)
    (parse : String → Option Node) :
    List String → Cache → List (String × List QueryRec) →
      Cache × List (String × List QueryRec)
  | [], st, acc => (st, acc)
  | p :: rest, st, acc =>
    match parseFile fs parse st p with
    | (st', none) => customQueryAux q fs parse rest st' acc
    | (st', some tree) =>
      match fs p with
      | none => customQueryAux q fs parse rest st' acc
      | some content =>
        let frs := (q tree).filterMap (processCapture content)
        customQueryAux q fs parse rest st'
          (if frs.isEmpty then acc else acc ++ [(p, frs)])

/-- `TypeScriptAnalyzer.custom_query`: compile the query (a failure is
caught and the empty result returned), then run it over every file. -/
def customQuery (compile : String → Option (Node → List RawItem))
    (files : List String) (fs : String → Option String) (parse : String → Option Node)
    (st : Cache) (qs : String) : Cache × List (String × List QueryRec) :=
  match compile qs with
  | none => (st, [])
  | some q => customQueryAux q fs parse files st []

/-- The statistics dictionary of `generate_stats`. -/
structure Stats where
  total_files : Nat
  total_lines : Nat
  imports : Nat
  exports : Nat
  classes : Nat
  interfaces : Nat
  functions : Nat
  type_aliases : Nat
  file_sizes : List (String × Nat)
  avg_lines_per_file : ℚ
deriving Repr, DecidableEq

def initStats : Stats :=
  { total_files := 0, total_lines := 0, imports := 0, exports := 0, classes := 0
    interfaces := 0, functions := 0, type_aliases := 0, file_sizes := []
    avg_lines_per_file := 0 }

/-- `generate_stats.process_node`: count one construct per node type. -/
def statsCb (node : Node) (s : Stats) : Stats × Option Bool :=
  (if node.type = "import_statement" then { s with imports := s.imports + 1 }
   else if node.type = "export_statement" then { s with exports := s.exports + 1 }
   else if node.type = "class_declaration" then { s with classes := s.classes + 1 }
   else if node.type = "interface_declaration" then { s with interfaces := s.interfaces + 1 }
   else if node.type = "function_declaration" then { s with functions := s.functions + 1 }
   else if node.type = "type_alias_declaration" then { s with type_aliases := s.type_aliases + 1 }
   else s, none)

/-- The per-file loop of `generate_stats`: the file count is bumped
first; a failed read (`except: continue`) skips the rest of the body;
then the line counts are added and the parsed tree's constructs
counted. -/
def generateStatsAux (fs : String → Option String) (parse : String → Option Node) :
    List String → Cache → Stats → Cache × Stats
  | [], st, s => (st, s)
  | p :: rest, st, s =>
    let s1 := { s with total_files := s.total_files + 1 }
    match fs p with
    | none => generateStatsAux fs parse rest st s1
    | some content =>
      let lc := lineCount content
      let s2 := { s1 with total_lines := s1.total_lines + lc
                          file_sizes := s1.file_sizes ++ [(p, lc)] }
      match parseFile fs parse st p with
      | (st', none) => generateStatsAux fs parse rest st' s2
      | (st', some tree) => generateStatsAux fs parse rest st' (traverseTree statsCb tree s2)

/-- `TypeScriptAnalyzer.generate_stats`: run the loop, then fill in the
average (0 when no file was discovered). -/
def generateStats (files : List String) (fs : String → Option String)
    (parse : String → Option Node) (st : Cache) : Cache × Stats :=
  let r := generateStatsAux fs parse files st initStats
  (r.1, { r.2 with avg_lines_per_file :=
            if r.2.total_files > 0 then (r.2.total_lines : ℚ) / (r.2.total_files : ℚ) else 0 })

/-! ### Concrete example inputs

CSTs of the shape the external engine produces for small sources, used
to instantiate the theorems on the worked examples of the spec. -/

/-- The `identifier` callee of `bar(1)`. -/
def identBar : Node := .mk "identifier" 0 3 ⟨0, 0⟩ []

/-- The `call_expression` node of the source `bar(1)`. -/
def callBar1 : Node :=
  .mk "call_expression" 0 6 ⟨0, 0⟩
    [identBar, .mk "arguments" 3 6 ⟨0, 3⟩ [.mk "number" 4 5 ⟨0, 4⟩ []]]

/-- CST for the one-line source `bar(1)`. -/
def treeBar1 : Node :=
  .mk "program" 0 6 ⟨0, 0⟩ [.mk "expression_statement" 0 6 ⟨0, 0⟩ [callBar1]]

/-- The `member_expression` callee of `obj.bar(1)`. -/
def memberObjBar : Node :=
  .mk "member_expression" 0 7 ⟨0, 0⟩
    [.mk "identifier" 0 3 ⟨0, 0⟩ [], .mk "property_identifier" 4 7 ⟨0, 4⟩ []]

/-- CST for the one-line source `obj.bar(1)`. -/
def treeObjBar : Node :=
  .mk "program" 0 10 ⟨0, 0⟩
    [.mk "expression_statement" 0 10 ⟨0, 0⟩
      [.mk "call_expression" 0 10 ⟨0, 0⟩
        [memberObjBar, .mk "arguments" 7 10 ⟨0, 7⟩ [.mk "number" 8 9 ⟨0, 8⟩ []]]]]

/-- CST for the one-line source `barBaz(1)`. -/
def treeBarBaz : Node :=
  .mk "program" 0 9 ⟨0, 0⟩
    [.mk "expression_statement" 0 9 ⟨0, 0⟩
      [.mk "call_expression" 0 9 ⟨0, 0⟩
        [.mk "identifier" 0 6 ⟨0, 0⟩ [],
         .mk "arguments" 6 9 ⟨0, 6⟩ [.mk "number" 7 8 ⟨0, 7⟩ []]]]]

/-- CST for `obj[bar](1)` — a call via computed member access: the
callee is a `subscript_expression` whose text is `obj[bar]`. -/
def treeComputed : Node :=
  .mk "program" 0 11 ⟨0, 0⟩
    [.mk "expression_statement" 0 11 ⟨0, 0⟩
      [.mk "call_expression" 0 11 ⟨0, 0⟩
        [.mk "subscript_expression" 0 8 ⟨0, 0⟩
          [.mk "identifier" 0 3 ⟨0, 0⟩ [], .mk "identifier" 4 7 ⟨0, 4⟩ []],
         .mk "arguments" 8 11 ⟨0, 8⟩ [.mk "number" 9 10 ⟨0, 9⟩ []]]]]

/-- CST for `obj.bar.baz(1)` — `bar` occurs in the middle of a deeper
member chain; the callee text is `obj.bar.baz`. -/
def treeDeepChain : Node :=
  .mk "program" 0 14 ⟨0, 0⟩
    [.mk "expression_statement" 0 14 ⟨0, 0⟩
      [.mk "call_expression" 0 14 ⟨0, 0⟩
        [.mk "member_expression" 0 11 ⟨0, 0⟩
          [.mk "member_expression" 0 7 ⟨0, 0⟩
            [.mk "identifier" 0 3 ⟨0, 0⟩ [], .mk "property_identifier" 4 7 ⟨0, 4⟩ []],
           .mk "property_identifier" 8 11 ⟨0, 8⟩ []],
         .mk "arguments" 11 14 ⟨0, 11⟩ [.mk "number" 12 13 ⟨0, 12⟩ []]]]]

/-- The `call_expression` node of the source `bar(1,2)`, as the engine
really produces it: `Node.children` includes the anonymous token nodes,
so the `arguments` node's children are the `(` token, the two `number`
nodes with the `,` token between them, and the `)` token — its first
child is the `(` token, not the first argument. -/
def callBar12 : Node :=
  .mk "call_expression" 0 8 ⟨0, 0⟩
    [.mk "identifier" 0 3 ⟨0, 0⟩ [],
     .mk "arguments" 3 8 ⟨0, 3⟩
       [.mk "(" 3 4 ⟨0, 3⟩ [],
        .mk "number" 4 5 ⟨0, 4⟩ [],
        .mk "," 5 6 ⟨0, 5⟩ [],
        .mk "number" 6 7 ⟨0, 6⟩ [],
        .mk ")" 7 8 ⟨0, 7⟩ []]]

/-- CST for the one-line source `import Foo`. -/
def treeImp : Node :=
  .mk "program" 0 10 ⟨0, 0⟩ [.mk "import_statement" 0 10 ⟨0, 0⟩ []]

/-- CST for the one-line source `class Widget`. -/
def treeCls : Node :=
  .mk "program" 0 12 ⟨0, 0⟩
    [.mk "class_declaration" 0 12 ⟨0, 0⟩ [.mk "type_identifier" 6 12 ⟨0, 6⟩ []]]

/-- A file system holding the single file `a.ts` with content `bar(1)`. -/
def fsBar : String → Option String := fun p => if p = "a.ts" then some "bar(1)" else none

/-- An external parser answering the CST of `bar(1)` for any content. -/
def parseBar : String → Option Node := fun _ => some treeBar1

/-- A file system holding the single file `a.ts` with content `import Foo`. -/
def fsImp : String → Option String := fun p => if p = "a.ts" then some "import Foo" else none

/-- An external parser answering the CST of `import Foo` for any content. -/
def parseImp : String → Option Node := fun _ => some treeImp

/-- A file system holding the single file `a.ts` with content `class Widget`. -/
def fsCls : String → Option String := fun p => if p = "a.ts" then some "class Widget" else none

/-- An external parser answering the CST of `class Widget` for any content. -/
def parseCls : String → Option Node := fun _ => some treeCls

/-! ### Helper lemmas -/

mutual
/-- Running the walker with a callback that logs every visited node and
answers `d` produces exactly the pruned pre-order sequence (generalised
over the accumulator). -/
theorem traverseTree_log_aux (d : Node → Option Bool) :
    ∀ (n : Node) (s : List Node),
      traverseTree (fun m acc => (acc ++ [m], d m)) n s = s ++ prunedPreorder d n
  | .mk ty sb eb sp cs, s => by
    rw [traverseTree, prunedPreorder]
    by_cases h : d (.mk ty sb eb sp cs) = some false
    · simp [h]
    · simp only [h, if_neg]
      rw [traverseList_log_aux]
      simp [h]
theorem traverseList_log_aux (d : Node → Option Bool) :
    ∀ (ns : List Node) (s : List Node),
      traverseList (fun m acc => (acc ++ [m], d m)) ns s = s ++ prunedPreorderList d ns
  | [], s => by simp [traverseList, prunedPreorderList]
  | n :: rest, s => by
    rw [traverseList, prunedPreorderList, traverseTree_log_aux, traverseList_log_aux]
    simp
end

/-- The per-node decision of `find_function_calls` succeeds exactly when
the first child's slice equals the name or ends with `"." ++ name`. -/
theorem processCallNode_isSome_iff (content name : String) (efa : Bool)
    (node fn : Node) (rest : List Node) (hch : node.children = fn :: rest) :
    ((processCallNode content name efa node).isSome = true ↔
      (strSlice content fn.startByte fn.endByte = name ∨
        strEndsWith (strSlice content fn.startByte fn.endByte) ("." ++ name) = true)) := by
  unfold processCallNode
  rw [hch]
  by_cases h : strSlice content fn.startByte fn.endByte = name ∨
      strEndsWith (strSlice content fn.startByte fn.endByte) ("." ++ name) = true
  · simp only [if_pos h, Option.isSome_some, true_iff]
    exact h
  · simp [if_neg h, h]

/-- The shared `find_*` loop only ever appends non-empty record lists
to the result mapping. -/
theorem runOpAux_no_empty {ρ : Type} (perFile : String → Node → Except Unit (List ρ))
    (fs : String → Option String) (parse : String → Option Node) (files : List String) :
    ∀ (st : Cache) (acc : List (String × List ρ)) (st' : Cache)
      (res : List (String × List ρ)),
      (∀ pl ∈ acc, pl.2 ≠ []) →
      runOpAux perFile fs parse files st acc = .ok (st', res) →
      ∀ pl ∈ res, pl.2 ≠ [] := by
  induction files with
  | nil =>
    intro st acc st' res hacc heq
    unfold runOpAux at heq
    rw [Except.ok.injEq, Prod.mk.injEq] at heq
    obtain ⟨-, h2⟩ := heq
    exact h2 ▸ hacc
  | cons p rest ih =>
    intro st acc st' res hacc heq
    unfold runOpAux at heq
    rcases hpf : parseFile fs parse st p with ⟨st₂, tOpt⟩
    rw [hpf] at heq
    cases tOpt with
    | none =>
      dsimp only at heq
      exact ih st₂ acc st' res hacc heq
    | some tree =>
      dsimp only at heq
      cases hq : perFile p tree with
      | error e => rw [hq] at heq; simp at heq
      | ok recs =>
        rw [hq] at heq
        dsimp only at heq
        refine ih st₂ _ st' res ?_ heq
        cases recs with
        | nil => simpa using hacc
        | cons a l =>
          intro pl hpl
          simp only [List.isEmpty_cons, Bool.false_eq_true, if_false] at hpl
          rcases List.mem_append.mp hpl with h | h
          · exact hacc pl h
          · rw [List.mem_singleton] at h
            rw [h]
            simp

/-- The `custom_query` loop only ever appends non-empty record lists to
the result mapping. -/
theorem customQueryAux_no_empty (q : Node → List RawItem) (fs : String → Option String)
    (parse : String → Option Node) (files : List String) :
    ∀ (st : Cache) (acc : List (String × List QueryRec)),
      (∀ pl ∈ acc, pl.2 ≠ []) →
      ∀ pl ∈ (customQueryAux q fs parse files st acc).2, pl.2 ≠ [] := by
  induction files with
  | nil =>
    intro st acc hacc
    simpa [customQueryAux] using hacc
  | cons p rest ih =>
    intro st acc hacc
    unfold customQueryAux
    rcases hpf : parseFile fs parse st p with ⟨st₂, tOpt⟩
    cases tOpt with
    | none => exact ih st₂ acc hacc
    | some tree =>
      dsimp only
      cases hf : fs p with
      | none => exact ih st₂ acc hacc
      | some content =>
        dsimp only
        refine ih st₂ _ ?_
        cases hfrs : (q tree).filterMap (processCapture content) with
        | nil => simpa using hacc
        | cons a l =>
          intro pl hpl
          simp only [List.isEmpty_cons, Bool.false_eq_true, if_false] at hpl
          rcases List.mem_append.mp hpl with h | h
          · exact hacc pl h
          · rw [List.mem_singleton] at h
            rw [h]
            simp

/-- With a consistent cache, `parse_file` answers exactly what parsing
the current on-disk content would answer. -/
theorem parseFile_snd_of_consistent (fs : String → Option String)
    (parse : String → Option Node) (st : Cache) (hc : CacheConsistent fs parse st)
    (p : String) : (parseFile fs parse st p).2 = pureParse fs parse p := by
  unfold parseFile
  cases hl : lookupCache st p with
  | some t =>
    dsimp only
    exact (hc p t hl).symm
  | none =>
    dsimp only
    unfold pureParse
    cases hf : fs p with
    | none => rfl
    | some c =>
      dsimp only [Option.bind]
      cases hp : parse c with
      | none => rfl
      | some tree => rfl

/-- `parse_file` keeps the cache consistent. -/
theorem parseFile_preserves_consistent (fs : String → Option String)
    (parse : String → Option Node) (st : Cache) (hc : CacheConsistent fs parse st)
    (p : String) : CacheConsistent fs parse (parseFile fs parse st p).1 := by
  unfold parseFile
  cases hl : lookupCache st p with
  | some t => exact hc
  | none =>
    dsimp only
    cases hf : fs p with
    | none => exact hc
    | some c =>
      dsimp only
      cases hp : parse c with
      | none => exact hc
      | some tree =>
        dsimp only
        intro q u hq
        unfold lookupCache at hq
        by_cases hpq : p = q
        · rw [if_pos hpq] at hq
          subst hpq
          injection hq with hq
          rw [← hq]
          unfold pureParse
          rw [hf]
          dsimp only [Option.bind]
          exact hp
        · rw [if_neg hpq] at hq
          exact hc q u hq

/-- Two runs of the shared `find_*` loop from consistent caches produce
the same result mapping (and the same error, if any). -/
theorem runOpAux_snd_congr {ρ : Type} (perFile : String → Node → Except Unit (List ρ))
    (fs : String → Option String) (parse : String → Option Node) (files : List String) :
    ∀ (st₁ st₂ : Cache) (acc : List (String × List ρ)),
      CacheConsistent fs parse st₁ → CacheConsistent fs parse st₂ →
      (runOpAux perFile fs parse files st₁ acc).map Prod.snd =
        (runOpAux perFile fs parse files st₂ acc).map Prod.snd := by
  induction files with
  | nil => intro st₁ st₂ acc h1 h2; rfl
  | cons p rest ih =>
    intro st₁ st₂ acc h1 h2
    have e1 := parseFile_snd_of_consistent fs parse st₁ h1 p
    have e2 := parseFile_snd_of_consistent fs parse st₂ h2 p
    have c1 := parseFile_preserves_consistent fs parse st₁ h1 p
    have c2 := parseFile_preserves_consistent fs parse st₂ h2 p
    rcases hp1 : parseFile fs parse st₁ p with ⟨st₁a, t₁⟩
    rcases hp2 : parseFile fs parse st₂ p with ⟨st₂a, t₂⟩
    rw [hp1] at e1 c1
    rw [hp2] at e2 c2
    dsimp only at e1 e2 c1 c2
    unfold runOpAux
    rw [hp1, hp2]
    have ht : t₁ = t₂ := by rw [e1, e2]
    subst ht
    cases t₁ with
    | none => exact ih st₁a st₂a acc c1 c2
    | some tree =>
      dsimp only
      cases hq : perFile p tree with
      | error e => rfl
      | ok recs => exact ih st₁a st₂a _ c1 c2

/-- A successful run of the shared `find_*` loop from a consistent
cache ends in a consistent cache. -/
theorem runOpAux_ok_consistent {ρ : Type} (perFile : String → Node → Except Unit (List ρ))
    (fs : String → Option String) (parse : String → Option Node) (files : List String) :
    ∀ (st : Cache) (acc : List (String × List ρ)) (st' : Cache)
      (res : List (String × List ρ)),
      CacheConsistent fs parse st →
      runOpAux perFile fs parse files st acc = .ok (st', res) →
      CacheConsistent fs parse st' := by
  induction files with
  | nil =>
    intro st acc st' res hc heq
    unfold runOpAux at heq
    rw [Except.ok.injEq, Prod.mk.injEq] at heq
    obtain ⟨h1, -⟩ := heq
    exact h1 ▸ hc
  | cons p rest ih =>
    intro st acc st' res hc heq
    unfold runOpAux at heq
    have cpre := parseFile_preserves_consistent fs parse st hc p
    rcases hpf : parseFile fs parse st p with ⟨st₂, tOpt⟩
    rw [hpf] at heq cpre
    dsimp only at cpre
    cases tOpt with
    | none =>
      dsimp only at heq
      exact ih st₂ acc st' res cpre heq
    | some tree =>
      dsimp only at heq
      cases hq : perFile p tree with
      | error e => rw [hq] at heq; simp at heq
      | ok recs =>
        rw [hq] at heq
        dsimp only at heq
        exact ih st₂ _ st' res cpre heq

/-- After a successful run of the shared loop from a consistent cache,
a second run reproduces the same result mapping. -/
theorem runOp_second_run {ρ : Type} (perFile : String → Node → Except Unit (List ρ))
    (fs : String → Option String) (parse : String → Option Node) (files : List String)
    (st st₁ : Cache) (r₁ : List (String × List ρ))
    (hc : CacheConsistent fs parse st)
    (h1 : runOpAux perFile fs parse files st [] = .ok (st₁, r₁)) :
    (runOpAux perFile fs parse files st₁ []).map Prod.snd = .ok r₁ := by
  have hc1 : CacheConsistent fs parse st₁ :=
    runOpAux_ok_consistent perFile fs parse files st [] st₁ r₁ hc h1
  have hcongr := runOpAux_snd_congr perFile fs parse files st₁ st [] hc1 hc
  rw [hcongr, h1]
  rfl

/-! ### Claims -/

/-- Claim C4: `_traverse_tree` visits nodes in pre-order depth-first
order, and for every node the visitor's return value controls descent:
children are skipped only on the explicit skip signal (`False`, i.e.
`some false`); any other return value — `True` or no return value at
all (`none`) — descends into the children.  Stated as: logging the
visits of `traverseTree` under an arbitrary visitor decision `d` yields
exactly the spec-side pruned pre-order sequence `prunedPreorder d`. -/
theorem traverse_tree_preorder_pruning (d : Node → Option Bool) (n : Node) :
    traverseTree (fun m acc => (acc ++ [m], d m)) n [] = prunedPreorder d n := by
  simpa using traverseTree_log_aux d n []

/-- Claim C1: for every call-expression node visited by
`find_function_calls(name)`, a match is emitted iff the callee text
(the first child's source slice) equals `name` or ends with
`"." ++ name`; searching `bar` matches `bar(1)` and `obj.bar(1)` but
not `barBaz(1)`, and a call via computed member access (`obj[bar](1)`)
or a call whose sought name sits deeper in the member chain
(`obj.bar.baz(1)`) emits no match. -/
theorem find_function_calls_callee_match :
    (∀ (content name : String) (efa : Bool) (node fn : Node) (rest : List Node)
        (recs : List CallRec),
        node.type = "call_expression" → node.children = fn :: rest →
        ((∃ r, (callCb (some content) name efa node (.ok recs)).1 = .ok (recs ++ [r])) ↔
          (strSlice content fn.startByte fn.endByte = name ∨
            strEndsWith (strSlice content fn.startByte fn.endByte) ("." ++ name) = true)))
    ∧ findFunctionCallsFile (some "bar(1)") "bar" false treeBar1 =
        .ok [{ line := 1, column := 0, text := "bar(1)", first_arg := none }]
    ∧ findFunctionCallsFile (some "obj.bar(1)") "bar" false treeObjBar =
        .ok [{ line := 1, column := 0, text := "obj.bar(1)", first_arg := none }]
    ∧ findFunctionCallsFile (some "barBaz(1)") "bar" false treeBarBaz = .ok []
    ∧ findFunctionCallsFile (some "obj[bar](1)") "bar" false treeComputed = .ok []
    ∧ findFunctionCallsFile (some "obj.bar.baz(1)") "bar" false treeDeepChain = .ok [] := by
  refine ⟨?_, rfl, rfl, rfl, rfl, rfl⟩
  intro content name efa node fn rest recs hty hch
  have hred : (callCb (some content) name efa node (.ok recs)).1 =
      .ok (recs ++ (processCallNode content name efa node).toList) := by
    unfold callCb
    rw [hch, hty]
    simp
  have hiff := processCallNode_isSome_iff content name efa node fn rest hch
  rw [hred]
  constructor
  · rintro ⟨r, hr⟩
    have hlist : (processCallNode content name efa node).toList = [r] :=
      List.append_cancel_left (Except.ok.inj hr)
    have : (processCallNode content name efa node).isSome = true := by
      cases hpc : processCallNode content name efa node with
      | none => rw [hpc] at hlist; cases hlist
      | some r₂ => rfl
    exact hiff.mp this
  · intro hcond
    rcases Option.isSome_iff_exists.mp (hiff.mpr hcond) with ⟨r, hr⟩
    exact ⟨r, by rw [hr]; rfl⟩

/-- Witness for C1 at the call node of `bar(1)` with an empty record
list: the callee slice is `bar`, so a match is emitted. -/
theorem find_function_calls_callee_match_w :
    (∃ r, (callCb (some "bar(1)") "bar" false callBar1 (.ok [])).1 = .ok ([] ++ [r])) ↔
      (strSlice "bar(1)" identBar.startByte identBar.endByte = "bar" ∨
        strEndsWith (strSlice "bar(1)" identBar.startByte identBar.endByte) ("." ++ "bar") = true) :=
  find_function_calls_callee_match.1 "bar(1)" "bar" false callBar1 identBar
    [Node.mk "arguments" 3 6 ⟨0, 3⟩ [Node.mk "number" 4 5 ⟨0, 4⟩ []]] [] rfl rfl

/-- Claim C2, code bug: on the CST the engine really produces for
`bar(1,2)` — where the `arguments` node's children include the
anonymous `(`, `,` and `)` token nodes — the code slices
`args_node.children[0]`, which is the `(` token, so the record carries
`first_arg = "("` and not the first argument `"1"` that the claim (and
the code's own comment, "Extract first argument") intends. -/
theorem find_function_calls_first_arg_is_paren :
    processCallNode "bar(1,2)" "bar" true callBar12 =
      some { line := 1, column := 0, text := "bar(1,2)", first_arg := some "(" } ∧
    (some "(" : Option String) ≠ some "1" := by
  exact ⟨rfl, by decide⟩

/-- Claim C5: once a parse succeeded for a path, every later
`parse_file` call for that path returns the identical cached tree with
the cache unchanged, for an arbitrary (possibly modified or deleted)
on-disk state `fs'` — the file is not re-read.  Applying the theorem to
its own conclusion extends this to the whole cache lifetime, i.e. until
`clear_cache` replaces the cache. -/
theorem parse_file_serves_cached_tree (fs : String → Option String)
    (parse : String → Option Node) (st : Cache) (path : String) (st' : Cache) (t : Node)
    (h : parseFile fs parse st path = (st', some t)) :
    ∀ fs' : String → Option String, parseFile fs' parse st' path = (st', some t) := by
  have hl : lookupCache st' path = some t := by
    unfold parseFile at h
    cases hc : lookupCache st path with
    | some u =>
      rw [hc] at h
      dsimp only at h
      rw [Prod.mk.injEq] at h
      obtain ⟨h1, h2⟩ := h
      rw [← h1, hc, h2]
    | none =>
      rw [hc] at h
      dsimp only at h
      cases hf : fs path with
      | none => rw [hf] at h; dsimp only at h; simp at h
      | some c =>
        rw [hf] at h
        dsimp only at h
        cases hp : parse c with
        | none => rw [hp] at h; dsimp only at h; simp at h
        | some tree =>
          rw [hp] at h
          dsimp only at h
          rw [Prod.mk.injEq] at h
          obtain ⟨h1, h2⟩ := h
          rw [← h1]
          simpa [lookupCache] using h2
  intro fs'
  unfold parseFile
  rw [hl]

/-- Witness for C5: after parsing `a.ts` (content `bar(1)`) into an
empty cache, a repeat call against a file system where the file no
longer exists still returns the cached tree. -/
theorem parse_file_serves_cached_tree_w :
    parseFile (fun _ => none) parseBar [("a.ts", treeBar1)] "a.ts" =
      ([("a.ts", treeBar1)], some treeBar1) :=
  parse_file_serves_cached_tree fsBar parseBar [] "a.ts" [("a.ts", treeBar1)] treeBar1
    rfl (fun _ => none)

/-- Claim C10: when `parse_file` fails to read or parse a file it
returns `None` and stores nothing in the cache, so a later call for the
same path re-attempts the read and parse (and succeeds once the file
becomes readable and parseable) instead of returning a cached failure. -/
theorem parse_file_failure_not_cached (fs : String → Option String)
    (parse : String → Option Node) (st : Cache) (path : String)
    (hmiss : lookupCache st path = none) (hfail : pureParse fs parse path = none) :
    parseFile fs parse st path = (st, none) ∧
    ∀ (fs' : String → Option String) (c : String) (t : Node),
      fs' path = some c → parse c = some t →
      parseFile fs' parse st path = ((path, t) :: st, some t) := by
  constructor
  · unfold parseFile
    rw [hmiss]
    dsimp only
    unfold pureParse at hfail
    cases hf : fs path with
    | none => rfl
    | some c =>
      rw [hf] at hfail
      dsimp only [Option.bind] at hfail
      dsimp only
      rw [hfail]
  · intro fs' c t hc ht
    unfold parseFile
    rw [hmiss]
    dsimp only
    rw [hc]
    dsimp only
    rw [ht]

/-- Witness for C10: reading `a.ts` from an empty file system fails and
caches nothing; re-attempting against a file system that now holds the
file parses it fresh. -/
theorem parse_file_failure_not_cached_w :
    parseFile (fun _ => none) parseBar [] "a.ts" = ([], none) ∧
      parseFile fsBar parseBar [] "a.ts" = ([("a.ts", treeBar1)], some treeBar1) := by
  have h := parse_file_failure_not_cached (fun _ => none) parseBar [] "a.ts" rfl rfl
  exact ⟨h.1, h.2 fsBar "bar(1)" treeBar1 rfl rfl⟩

/-- Claim C7: when compiling the query string fails, `custom_query`
returns the empty mapping (and an unchanged cache — no file is
processed) instead of raising the compilation error. -/
theorem custom_query_compile_failure (compile : String → Option (Node → List RawItem))
    (files : List String) (fs : String → Option String) (parse : String → Option Node)
    (st : Cache) (qs : String) (h : compile qs = none) :
    customQuery compile files fs parse st qs = (st, []) := by
  unfold customQuery
  rw [h]

/-- Witness for C7: a compiler that rejects every query yields the
empty result on a non-empty, readable file set. -/
theorem custom_query_compile_failure_w :
    customQuery (fun _ => none) ["a.ts"] fsBar parseBar [] "(bad" = ([], []) :=
  custom_query_compile_failure (fun _ => none) ["a.ts"] fsBar parseBar [] "(bad" rfl

/-- Claim C8: in `generate_stats` the file count is incremented before
the read attempt, so a file whose read fails contributes exactly 1 to
`total_files` and nothing to `total_lines`, `file_sizes` or any
construct counter, and the loop continues with the remaining files. -/
theorem generate_stats_read_failure (fs : String → Option String)
    (parse : String → Option Node) (p : String) (rest : List String)
    (st : Cache) (s : Stats) (h : fs p = none) :
    generateStatsAux fs parse (p :: rest) st s =
      generateStatsAux fs parse rest st { s with total_files := s.total_files + 1 } := by
  simp only [generateStatsAux, h]

/-- Witness for C8: a single unreadable file yields
`total_files = 1` and everything else at its initial value. -/
theorem generate_stats_read_failure_w :
    generateStatsAux (fun _ => none) parseBar ["a.ts"] [] initStats =
      generateStatsAux (fun _ => none) parseBar [] []
        { initStats with total_files := initStats.total_files + 1 } :=
  generate_stats_read_failure (fun _ => none) parseBar "a.ts" [] [] initStats rfl

/-- Counterexample to C3 as stated: the 2-tuple `(node, 0)` is neither
a node-plus-name pair nor a node-plus-index-plus-name triple, yet
`custom_query` does not drop it — it emits a record with capture name
`unknown`. -/
theorem custom_query_unrecognized_not_dropped :
    recognizedShape (RawItem.tup (Node.mk "identifier" 0 1 ⟨0, 0⟩ []) [PyVal.vint 0]) = false ∧
    processCapture "x" (RawItem.tup (Node.mk "identifier" 0 1 ⟨0, 0⟩ []) [PyVal.vint 0]) =
      some { capture := "unknown", line := 1, column := 0, text := "x" } :=
  ⟨rfl, rfl⟩

/-- Claim C3 (amended): a non-tuple capture item, or a tuple with fewer
than two elements, is dropped and produces no record; a tuple with at
least two elements always produces a record (with capture name
`unknown` when none can be identified) rather than being dropped; and a
dropped item leaves the records of the remaining captures unchanged, so
processing continues. -/
theorem custom_query_capture_shapes (content : String) (n : Node) (v : PyVal)
    (rest : List PyVal) (items₁ items₂ : List RawItem) :
    processCapture content RawItem.nonTuple = none ∧
    processCapture content (RawItem.tup n []) = none ∧
    (processCapture content (RawItem.tup n (v :: rest))).isSome = true ∧
    ((items₁ ++ RawItem.nonTuple :: items₂).filterMap (processCapture content) =
      (items₁ ++ items₂).filterMap (processCapture content)) ∧
    ((items₁ ++ RawItem.tup n [] :: items₂).filterMap (processCapture content) =
      (items₁ ++ items₂).filterMap (processCapture content)) := by
  refine ⟨rfl, by simp [processCapture], by simp [processCapture], ?_, ?_⟩
  · simp [List.filterMap_append, List.filterMap_cons, processCapture]
  · simp [List.filterMap_append, List.filterMap_cons, processCapture]

/-- Claim C6: in every query operation (`find_imports`,
`find_function_calls`, `find_class_definitions`, `custom_query`) a file
with zero matches contributes no key to the returned mapping — a key is
never present with an empty list. -/
theorem results_omit_empty_files (files : List String) (fs : String → Option String)
    (parse : String → Option Node) (st : Cache) (name : String) (efa : Bool)
    (cf : Option String) (compile : String → Option (Node → List RawItem)) (qs : String) :
    (∀ st' res p l, findImports files fs parse st name = .ok (st', res) →
        (p, l) ∈ res → l ≠ []) ∧
    (∀ st' res p l, findFunctionCalls files fs parse st name efa = .ok (st', res) →
        (p, l) ∈ res → l ≠ []) ∧
    (∀ st' res p l, findClassDefinitions files fs parse st cf = .ok (st', res) →
        (p, l) ∈ res → l ≠ []) ∧
    (∀ p l, (p, l) ∈ (customQuery compile files fs parse st qs).2 → l ≠ []) := by
  refine ⟨?_, ?_, ?_, ?_⟩
  · intro st' res p l heq hmem
    exact runOpAux_no_empty _ fs parse files st [] st' res (by simp) heq (p, l) hmem
  · intro st' res p l heq hmem
    exact runOpAux_no_empty _ fs parse files st [] st' res (by simp) heq (p, l) hmem
  · intro st' res p l heq hmem
    exact runOpAux_no_empty _ fs parse files st [] st' res (by simp) heq (p, l) hmem
  · intro p l hmem
    unfold customQuery at hmem
    cases hcq : compile qs with
    | none => rw [hcq] at hmem; simp at hmem
    | some q =>
      rw [hcq] at hmem
      exact customQueryAux_no_empty q fs parse files st [] (by simp) (p, l) hmem

/-- Witness for C6: the four operations run on one-file codebases that
do produce a key; the record list under the key is non-empty. -/
theorem results_omit_empty_files_w :
    ([{ line := 1, text := "import Foo", import_type := "import_statement" }] : List ImportRec) ≠ [] ∧
    ([{ line := 1, column := 0, text := "bar(1)", first_arg := none }] : List CallRec) ≠ [] ∧
    ([{ name := "Widget", line := 1, column := 0, text := "class Widget" }] : List ClassRec) ≠ [] ∧
    ([{ capture := "c", line := 1, column := 0, text := "bar(1)" }] : List QueryRec) ≠ [] := by
  refine ⟨?_, ?_, ?_, ?_⟩
  · exact (results_omit_empty_files ["a.ts"] fsImp parseImp [] "Foo" false none
      (fun _ => none) "q").1 [("a.ts", treeImp)]
      [("a.ts", [{ line := 1, text := "import Foo", import_type := "import_statement" }])]
      "a.ts" _ rfl (List.mem_singleton.mpr rfl)
  · exact (results_omit_empty_files ["a.ts"] fsBar parseBar [] "bar" false none
      (fun _ => none) "q").2.1 [("a.ts", treeBar1)]
      [("a.ts", [{ line := 1, column := 0, text := "bar(1)", first_arg := none }])]
      "a.ts" _ rfl (List.mem_singleton.mpr rfl)
  · exact (results_omit_empty_files ["a.ts"] fsCls parseCls [] "Widget" false (some "Widget")
      (fun _ => none) "q").2.2.1 [("a.ts", treeCls)]
      [("a.ts", [{ name := "Widget", line := 1, column := 0, text := "class Widget" }])]
      "a.ts" _ rfl (List.mem_singleton.mpr rfl)
  · exact (results_omit_empty_files ["a.ts"] fsBar parseBar [] "bar" false none
      (fun _ => some (fun root => [RawItem.tup root [PyVal.vstr "c"]])) "(q)").2.2.2
      "a.ts" _ (List.mem_singleton.mpr rfl)

/-- Claim C9: with a cache consistent with the (fixed) file contents,
a successful `find_imports`, `find_function_calls` or
`find_class_definitions` call, re-run from the cache the first call
left behind, returns the identical result mapping. -/
theorem find_ops_idempotent (files : List String) (fs : String → Option String)
    (parse : String → Option Node) (st : Cache) (name : String) (efa : Bool)
    (cf : Option String) (hc : CacheConsistent fs parse st) :
    (∀ st₁ r₁, findImports files fs parse st name = .ok (st₁, r₁) →
        (findImports files fs parse st₁ name).map Prod.snd = .ok r₁) ∧
    (∀ st₁ r₁, findFunctionCalls files fs parse st name efa = .ok (st₁, r₁) →
        (findFunctionCalls files fs parse st₁ name efa).map Prod.snd = .ok r₁) ∧
    (∀ st₁ r₁, findClassDefinitions files fs parse st cf = .ok (st₁, r₁) →
        (findClassDefinitions files fs parse st₁ cf).map Prod.snd = .ok r₁) := by
  refine ⟨?_, ?_, ?_⟩ <;>
    · intro st₁ r₁ h1
      exact runOp_second_run _ fs parse files st st₁ r₁ hc h1

/-- Witness for C9: `find_function_calls "bar"` on a one-file codebase,
run again from the populated cache, returns the same mapping. -/
theorem find_ops_idempotent_w :
    (findFunctionCalls ["a.ts"] fsBar parseBar [("a.ts", treeBar1)] "bar" false).map Prod.snd =
      .ok [("a.ts", [{ line := 1, column := 0, text := "bar(1)", first_arg := none }])] := by
  have hcons : CacheConsistent fsBar parseBar [] := by
    intro p t h
    simp [lookupCache] at h
  exact (find_ops_idempotent ["a.ts"] fsBar parseBar [] "bar" false none hcons).2.1
    [("a.ts", treeBar1)]
    [("a.ts", [{ line := 1, column := 0, text := "bar(1)", first_arg := none }])] rfl

end TSA
